import Mathlib

/-!
Verification of the core of the `uefi-boot` bootloader against its
natural-language specification.

The development shallowly embeds the Rust sources:
* `src/loader/elf64/mod.rs` — ELF-64 header validation (`from_slice`),
  program-header table access (`program_headers`, `contains`);
* `src/loader/elf64/program.rs` — program-header records and the iterator
  over the table;
* `src/arch/x86_64.rs` — the 4-level page-table builder (`prepare_root_pt`,
  `map`);
* `src/loader/mod.rs` — the kernel loader's page-count arithmetic and the
  sequences of `map` calls it issues per LOAD segment.

Machine integers are embedded as `Nat` with explicit `% 2^w` at the points
where the Rust code performs wrapping machine arithmetic (release-profile
semantics: the `u16` multiply in `program_headers`, the `u64` adds in
`contains` and `program_headers`).  Byte slices are `List Nat`; multi-byte
fields are read little-endian, matching the `repr(C)` struct
reinterpretation on x86_64.  Fallible operations return `Except`/`Option`;
a `panic!`-style fatal failure is `none`.
-/

set_option maxRecDepth 40000

deriving instance DecidableEq for Except

namespace Boot

/-- Errors of the ELF-64 reader, from `Elf64Error` in `src/loader/elf64/mod.rs`. -/
inductive Elf64Error where
  | SliceTooSmall : Nat → Elf64Error
  | NotElf : Elf64Error
  | NotElf64 : Elf64Error
  | InvalidVersion : Elf64Error
  deriving DecidableEq, Repr

/-- Read one byte of the slice (out-of-range reads default to 0; the embedded
code only reads in range, except through the program-header iterator, whose
unchecked accesses are exactly the ones claim C8 is about). -/
def readU8 (s : List Nat) (o : Nat) : Nat := s.getD o 0

/-- Little-endian 16-bit read, as the `repr(C)` header reinterpretation does. -/
def readU16 (s : List Nat) (o : Nat) : Nat := readU8 s o + 256 * readU8 s (o + 1)

/-- Little-endian 32-bit read. -/
def readU32 (s : List Nat) (o : Nat) : Nat := readU16 s o + 65536 * readU16 s (o + 2)

/-- Little-endian 64-bit read. -/
def readU64 (s : List Nat) (o : Nat) : Nat := readU32 s o + 4294967296 * readU32 s (o + 4)

/-- Value of `size_of::<Elf64Header>()`: 16 ident bytes + 2 + 2 + 4 + 8 + 8 + 8 + 4 + 6*2 = 64. -/
def headerSize : Nat := 64

/-- The ELF magic, `[0x7f, 0x45, 0x4C, 0x46]`. -/
def elfMagic : List Nat := [0x7f, 0x45, 0x4c, 0x46]

/-- Embedding of `Elf64::from_slice` (src/loader/elf64/mod.rs, lines 143-177): header-size
check, magic check, class byte `ident[4]`, identification version byte
`ident[6]`, 32-bit header version field, in that order.  The image value is
the borrowed slice itself. -/
def from_slice (s : List Nat) : Except Elf64Error (List Nat) :=
  if s.length < headerSize then .error (.SliceTooSmall headerSize)
  else if ¬ s.take 4 = elfMagic then .error .NotElf
  else if ¬ readU8 s 4 = 2 then .error .NotElf64
  else if ¬ readU8 s 6 = 1 then .error .InvalidVersion
  else if ¬ readU32 s 20 = 1 then .error .InvalidVersion
  else .ok s

/-- A program-header record, `ProgramHeader` in src/loader/elf64/program.rs. -/
structure ProgramHeader where
  type_ : Nat
  flags : Nat
  offset : Nat
  vaddr : Nat
  paddr : Nat
  filesz : Nat
  memsz : Nat
  align : Nat
  deriving DecidableEq, Repr, Inhabited

/-- Value of `size_of::<ProgramHeader>()`: 4 + 4 + 6*8 = 56 bytes (`repr(C)`, no padding). -/
def phEntrySize : Nat := 56

/-- Reinterpret 56 bytes at offset `o` of the image as a `ProgramHeader`,
as `ProgramHeaderIter::next` does through its raw-pointer cast. -/
def parseProgramHeader (s : List Nat) (o : Nat) : ProgramHeader :=
  ⟨readU32 s o, readU32 s (o + 4), readU64 s (o + 8), readU64 s (o + 16),
   readU64 s (o + 24), readU64 s (o + 32), readU64 s (o + 40), readU64 s (o + 48)⟩

/-- The `phoff` field of the ELF-64 header (byte offset 32). -/
def phoff (s : List Nat) : Nat := readU64 s 32

/-- The `phentsize` field of the ELF-64 header (byte offset 54). -/
def phentsize (s : List Nat) : Nat := readU16 s 54

/-- The `phnum` field of the ELF-64 header (byte offset 56). -/
def phnum (s : List Nat) : Nat := readU16 s 56

/-- Modulus of `u16` arithmetic. -/
def U16 : Nat := 65536

/-- Modulus of `u64`/`usize` arithmetic. -/
def U64 : Nat := 18446744073709551616

/-- The bound `program_headers` checks the slice against
(src/loader/elf64/mod.rs, lines 234-235): `ph_size = phnum * phentsize` is a
`u16` multiply (wraps mod 2^16 in the release profile) and
`phoff + ph_size as u64` is a `u64` add (wraps mod 2^64). -/
def requiredSize (s : List Nat) : Nat := (phoff s + (phnum s * phentsize s) % U16) % U64

/-- Embedding of `Elf64::program_headers` (src/loader/elf64/mod.rs, lines 232-244) combined
with the iterator it returns (src/loader/elf64/program.rs, lines 123-137): the
iterator yields `phnum` records, the `i`-th reinterpreted from the bytes at
`phoff + i * size_of::<ProgramHeader>()`. -/
def program_headers (s : List Nat) : Except Elf64Error (List ProgramHeader) :=
  if s.length < requiredSize s then .error (.SliceTooSmall (requiredSize s))
  else .ok ((List.range (phnum s)).map fun i => parseProgramHeader s (phoff s + i * phEntrySize))

/-- Embedding of `Elf64::contains` (src/loader/elf64/mod.rs, lines 247-254); the sum
`segment.offset + segment.filesz` is a `u64` add and wraps mod 2^64. -/
def contains (s : List Nat) (seg : ProgramHeader) : Bool :=
  if s.length < (seg.offset + seg.filesz) % U64 then false else true

/-- Constructor-level success test for `Except` results. -/
def isOkB {ε α : Type} : Except ε α → Bool
  | .ok _ => true
  | .error _ => false

/-- A well-formed 64-byte ELF-64 header (magic, class 2, both version fields 1)
with the given `phoff`, `phentsize` and `phnum` fields (each below 2^16). -/
def mkHeader (phoffv phentsizev phnumv : Nat) : List Nat :=
  elfMagic ++ [2, 1, 1, 0, 0, 0, 0, 0, 0, 0, 0, 0] ++
  [2, 0] ++ [0x3e, 0] ++ [1, 0, 0, 0] ++
  List.replicate 8 0 ++
  [phoffv % 256, phoffv / 256 % 256, 0, 0, 0, 0, 0, 0] ++
  List.replicate 8 0 ++ [0, 0, 0, 0] ++ [64, 0] ++
  [phentsizev % 256, phentsizev / 256 % 256] ++
  [phnumv % 256, phnumv / 256 % 256] ++
  List.replicate 6 0

/-- A 64-byte valid image whose `phnum * phentsize` is 2^16, so the `u16`
bound computation in `program_headers` wraps to 0. -/
def ex5 : List Nat := mkHeader 0 32 2048

/-- A 64-byte valid image whose program-header table (one 56-byte entry at
offset 64) does not fit: `requiredSize` is 120. -/
def exS : List Nat := mkHeader 64 56 1

/-- A 176-byte valid image with two 56-byte program headers at offset 64. -/
def ex5b : List Nat := mkHeader 64 56 2 ++ List.replicate 112 0

/-- A 66-byte valid image with `phentsize = 1` and `phnum = 2`: the checked
byte range ends at 66, but the iterator's second record is read from bytes
120..176, far outside it. -/
def ex8 : List Nat := mkHeader 64 1 2 ++ [0, 0]

/-- A 120-byte valid image with one program header at offset 64 whose
`offset` field is 2^64 - 1 and whose `filesz` is 2, so the `u64` sum in
`contains` wraps to 1. -/
def img7 : List Nat :=
  mkHeader 64 56 1 ++
  [1, 0, 0, 0] ++ [0, 0, 0, 0] ++ List.replicate 8 255 ++
  List.replicate 8 0 ++ List.replicate 8 0 ++
  [2, 0, 0, 0, 0, 0, 0, 0] ++ [2, 0, 0, 0, 0, 0, 0, 0] ++ List.replicate 8 0

/-- The single program-header record of `img7`. -/
def ph7 : ProgramHeader := parseProgramHeader img7 64

/-! ## Paging builder (src/arch/x86_64.rs)

The machine's page-table memory is a function `tables : Nat → Nat → Nat`
giving the 64-bit entry at index `i` of the table whose physical frame
address is `t`.  `root` is the frame the translation root register points
at, and `fresh` is the stream of page frames the firmware allocator
(`env::allocate_pages(1)`) will hand out, in order; an empty stream is an
allocation failure. -/

/-- The page size used for mappings. -/
def PAGE_SIZE : Nat := 4096

/-- The present bit of a page table entry. -/
def PRESENT : Nat := 1

/-- Mask to get a pointed frame from a page table entry. -/
def FRAME_MASK : Nat := 0x000ffffffffff000

/-- PT index of an address (bits 12..21). -/
def ptl1_index (addr : Nat) : Nat := (addr >>> 12) &&& 511

/-- PD index of an address (bits 21..30). -/
def ptl2_index (addr : Nat) : Nat := (addr >>> (12 + 9)) &&& 511

/-- PDP index of an address (bits 30..39). -/
def ptl3_index (addr : Nat) : Nat := (addr >>> (12 + 9 + 9)) &&& 511

/-- PML4 index of an address (bits 39..48). -/
def ptl4_index (addr : Nat) : Nat := (addr >>> (12 + 9 + 9 + 9)) &&& 511

/-- Page-table memory, active root, and the allocator's upcoming frames. -/
structure PTState where
  tables : Nat → Nat → Nat
  root : Nat
  fresh : List Nat

/-- Zero-fill the 512 entries of the table at frame `t` (`get_zeroed_pt`). -/
def zeroTable (m : Nat → Nat → Nat) (t : Nat) : Nat → Nat → Nat :=
  fun a i => if a = t then 0 else m a i

/-- Store `v` at index `i` of the table at frame `t`. -/
def writeEntry (m : Nat → Nat → Nat) (t i v : Nat) : Nat → Nat → Nat :=
  fun a j => if a = t ∧ j = i then v else m a j

/-- One interior level of `map` (src/arch/x86_64.rs, lines 94-122): if the
entry at `parent[idx]` is zero, allocate a fresh zeroed table, install it
with only the present flag, and descend into it; otherwise descend into the
frame masked from the entry.  `none` is the fatal allocation failure of
`get_zeroed_pt`. -/
def childTable (s : PTState) (parent idx : Nat) : Option (Nat × PTState) :=
  let e := s.tables parent idx
  if e = 0 then
    match s.fresh with
    | [] => none
    | p :: rest =>
      some (p, ⟨writeEntry (zeroTable s.tables p) parent idx (p ||| PRESENT), s.root, rest⟩)
  else
    some (e &&& FRAME_MASK, s)

/-- The three interior levels of `map`'s descent (PML4 → PDP → PD). -/
def interiorTables (s : PTState) (addr : Nat) : Option (Nat × Nat × Nat × PTState) := do
  let (ptl3, s3) ← childTable s s.root (ptl4_index addr)
  let (ptl2, s2) ← childTable s3 ptl3 (ptl3_index addr)
  let (ptl1, s1) ← childTable s2 ptl2 (ptl2_index addr)
  pure (ptl3, ptl2, ptl1, s1)

/-- Embedding of `map` (src/arch/x86_64.rs, lines 85-132).  A `none` models the panics: the
two alignment assertions, the lower-half assertion, allocation failure
inside an interior level, and the already-mapped (double-map) panic. -/
def map (s : PTState) (page addr : Nat) : Option PTState :=
  if ¬ page &&& 4095 = 0 then none
  else if ¬ addr &&& 4095 = 0 then none
  else if addr < 0xffff800000000000 then none
  else
    match interiorTables s addr with
    | none => none
    | some (_, _, ptl1, s1) =>
      if ¬ s1.tables ptl1 (ptl1_index addr) = 0 then none
      else some ⟨writeEntry s1.tables ptl1 (ptl1_index addr) (page ||| PRESENT), s1.root, s1.fresh⟩

/-- Embedding of `prepare_root_pt` (src/arch/x86_64.rs, lines 71-78): zero the higher
half of the root table, entries 256..512. -/
def prepare_root_pt (s : PTState) : PTState :=
  ⟨fun a i => if a = s.root ∧ 256 ≤ i ∧ i < 512 then 0 else s.tables a i, s.root, s.fresh⟩

/-- Modelled from the spec (§3 "Page table", §8 invariant 3): the hardware
virtual-to-physical walk of the 4-level tree.  The repository has no walk
function — the walk is performed by the MMU — so this observer follows the
spec's words: at each level the entry must have the present flag, and the
next table (or final frame) is the entry's frame address masked by
`FRAME_MASK`. -/
def walk (s : PTState) (addr : Nat) : Option Nat :=
  let e4 := s.tables s.root (ptl4_index addr)
  if e4 &&& PRESENT = 0 then none else
  let e3 := s.tables (e4 &&& FRAME_MASK) (ptl3_index addr)
  if e3 &&& PRESENT = 0 then none else
  let e2 := s.tables (e3 &&& FRAME_MASK) (ptl2_index addr)
  if e2 &&& PRESENT = 0 then none else
  let e1 := s.tables (e2 &&& FRAME_MASK) (ptl1_index addr)
  if e1 &&& PRESENT = 0 then none else some (e1 &&& FRAME_MASK)

/-- Relation between the state before a `map` call and an intermediate or
final state of its descent, used for the root-preservation proof: the root
is unchanged, the allocator stream only shrank, the lower half of the root
table is untouched, and every written entry is either original, zero, or a
fresh frame with the present flag. -/
def InvP (s0 s1 : PTState) : Prop :=
  s1.root = s0.root ∧
  (∀ a, a ∈ s1.fresh → a ∈ s0.fresh) ∧
  (∀ i, i < 256 → s1.tables s0.root i = s0.tables s0.root i) ∧
  (∀ t i, s1.tables t i = s0.tables t i ∨ s1.tables t i = 0 ∨
    ∃ a, a ∈ s0.fresh ∧ s1.tables t i = a ||| PRESENT)

/-- A concrete machine for witnesses: all page-table memory zero, root at
frame 4096, three upcoming allocator frames. -/
def s0c : PTState := ⟨fun _ _ => 0, 4096, [8192, 12288, 16384]⟩

/-! ## Kernel loader (src/loader/mod.rs) -/

/-- Count `total_pages` (line 77): pages mapped for a LOAD segment. -/
def total_pages (memsz : Nat) : Nat := memsz / PAGE_SIZE + 1

/-- Count `n_pages_from_file` (line 78): pages mapped from the kernel file. -/
def n_pages_from_file (filesz : Nat) : Nat := filesz / PAGE_SIZE + 1

/-- Count `n_alloc_pages` (line 79): fresh pages allocated for the segment tail. -/
def n_alloc_pages (filesz memsz : Nat) : Nat :=
  total_pages memsz - n_pages_from_file filesz

/-- The kernel-file buffer page count `n` (line 28). -/
def kernel_file_pages (kfile_len : Nat) : Nat := kfile_len / PAGE_SIZE + 1

/-- Length `zeroed_len` (line 111): the BSS zero-fill length. -/
def zeroed_len (filesz memsz : Nat) : Nat := memsz - filesz

/-- The `(page, addr)` arguments of the `map` calls issued by the
file-backed loop (lines 85-91). -/
def fileMapCalls (kfile_start_page offset vaddr filesz : Nat) : List (Nat × Nat) :=
  (List.range (n_pages_from_file filesz)).map fun x =>
    (kfile_start_page + offset + x * PAGE_SIZE, vaddr + x * PAGE_SIZE)

/-- The `(page, addr)` arguments of the `map` calls issued by the
allocated-tail loop (lines 93-107), guarded by `n_alloc_pages != 0`. -/
def allocMapCalls (alloc_start_page vaddr filesz memsz : Nat) : List (Nat × Nat) :=
  if ¬ n_alloc_pages filesz memsz = 0 then
    (List.range' (n_pages_from_file filesz) (n_alloc_pages filesz memsz)).map fun x =>
      (alloc_start_page + (x - n_pages_from_file filesz) * PAGE_SIZE, vaddr + x * PAGE_SIZE)
  else []

/-- All `map` calls issued for one LOAD segment, in program order. -/
def segMapCalls (kfile_start_page offset vaddr filesz memsz alloc_start_page : Nat) :
    List (Nat × Nat) :=
  fileMapCalls kfile_start_page offset vaddr filesz ++
  allocMapCalls alloc_start_page vaddr filesz memsz

/-! ## Theorems -/

/-- C2: `from_slice` fails with `SliceTooSmall 64` on slices shorter than the
64-byte header; otherwise `NotElf` when the first four bytes are not the ELF
magic; otherwise `NotElf64` when the class byte `ident[4]` is not 2; otherwise
`InvalidVersion` when the identification version byte `ident[6]` or the 32-bit
header version field is not 1; otherwise it returns the image.  The guard of
each case records that all earlier checks passed, capturing the check order. -/
theorem from_slice_check_order (s : List Nat) :
    (s.length < 64 → from_slice s = .error (.SliceTooSmall 64)) ∧
    (64 ≤ s.length → ¬ s.take 4 = elfMagic → from_slice s = .error .NotElf) ∧
    (64 ≤ s.length → s.take 4 = elfMagic → ¬ readU8 s 4 = 2 →
      from_slice s = .error .NotElf64) ∧
    (64 ≤ s.length → s.take 4 = elfMagic → readU8 s 4 = 2 →
      (¬ readU8 s 6 = 1 ∨ ¬ readU32 s 20 = 1) → from_slice s = .error .InvalidVersion) ∧
    (64 ≤ s.length → s.take 4 = elfMagic → readU8 s 4 = 2 → readU8 s 6 = 1 →
      readU32 s 20 = 1 → from_slice s = .ok s) := by
  refine ⟨?_, ?_, ?_, ?_, ?_⟩
  · intro h
    simp [from_slice, headerSize, h]
  · intro h hm
    simp [from_slice, headerSize, Nat.not_lt.mpr h, hm]
  · intro h hm hc
    simp [from_slice, headerSize, Nat.not_lt.mpr h, hm, hc]
  · intro h hm hc hv
    rcases hv with hv | hv <;>
      simp [from_slice, headerSize, Nat.not_lt.mpr h, hm, hc, hv]
  · intro h hm hc h6 h20
    simp [from_slice, headerSize, Nat.not_lt.mpr h, hm, hc, h6, h20]

/-- C2 witness: spec scenario S1, a 63-byte slice fails with `SliceTooSmall 64`. -/
theorem from_slice_check_order_witness :
    from_slice (List.replicate 63 0) = .error (.SliceTooSmall 64) :=
  (from_slice_check_order (List.replicate 63 0)).1 (by simp)

/-- C5 (amended): for a valid image, `program_headers` fails with
`SliceTooSmall (requiredSize s)` exactly when the slice is shorter than
`requiredSize s` — the bound from the code's wrapping `u16`/`u64` arithmetic,
`(phoff + (phnum * phentsize) mod 2^16) mod 2^64` — and otherwise yields
exactly `phnum` records, the `i`-th parsed from offset `phoff + i * 56`. -/
theorem program_headers_yield (s : List Nat) (_hok : from_slice s = .ok s) :
    (s.length < requiredSize s →
      program_headers s = .error (.SliceTooSmall (requiredSize s))) ∧
    (requiredSize s ≤ s.length →
      ∃ l, program_headers s = .ok l ∧ l.length = phnum s ∧
        ∀ i, i < phnum s →
          l[i]? = some (parseProgramHeader s (phoff s + i * phEntrySize))) := by
  constructor
  · intro h
    simp [program_headers, h]
  · intro h
    refine ⟨(List.range (phnum s)).map fun i => parseProgramHeader s (phoff s + i * phEntrySize),
      ?_, by simp, ?_⟩
    · simp [program_headers, Nat.not_lt.mpr h]
    · intro i hi
      simp [List.getElem?_map, List.getElem?_range hi]

/-- C5 counterexample: `ex5` is a valid ELF-64 image shorter than
`phoff + phnum * phentsize` (exact arithmetic), yet `program_headers`
succeeds instead of failing with `SliceTooSmall` at that exact bound,
because the `u16` product `2048 * 32` wraps to 0. -/
theorem program_headers_exact_bound_cex :
    from_slice ex5 = .ok ex5 ∧
    ex5.length < phoff ex5 + phnum ex5 * phentsize ex5 ∧
    isOkB (program_headers ex5) = true :=
  ⟨by decide, by decide, by decide⟩

/-- C5 witness: a valid 64-byte image whose one-entry table would end at byte
120 fails with `SliceTooSmall 120`; a valid 176-byte image with two entries
yields exactly 2 records. -/
theorem program_headers_yield_witness :
    program_headers exS = .error (.SliceTooSmall 120) ∧
    (program_headers ex5b).map List.length = .ok 2 := by
  constructor
  · have h := (program_headers_yield exS (by decide)).1 (by decide)
    rwa [(by decide : requiredSize exS = 120)] at h
  · obtain ⟨l, hl, hlen, -⟩ := (program_headers_yield ex5b (by decide)).2 (by decide)
    rw [hl]
    simpa [Except.map] using hlen

/-- C7 (amended): `contains` returns true iff the wrapped `u64` sum
`(offset + filesz) mod 2^64` is at most the length of the image's byte
slice. -/
theorem contains_mod_iff (s : List Nat) (seg : ProgramHeader) :
    contains s seg = true ↔ (seg.offset + seg.filesz) % U64 ≤ s.length := by
  unfold contains
  split
  · simp
    omega
  · simp
    omega

/-- C7 counterexample: `ph7` is the program-header record of the valid image
`img7`; its `offset + filesz` is 2^64 + 1, far beyond the 120-byte slice, yet
`contains` returns true because the `u64` sum wraps to 1. -/
theorem contains_exact_sum_cex :
    from_slice img7 = .ok img7 ∧
    program_headers img7 = .ok [ph7] ∧
    contains img7 ph7 = true ∧
    img7.length < ph7.offset + ph7.filesz :=
  ⟨by decide, by decide, by decide, by decide⟩

/-- C7 witness: the amended characterization evaluated on `img7` and `ph7`. -/
theorem contains_mod_iff_witness : contains img7 ph7 = true :=
  (contains_mod_iff img7 ph7).mpr (by decide)

/-- C8: the `i`-th record yielded by the program-header iterator is read from
byte offset `phoff + i * 56`, with 56 the fixed in-memory record size,
ignoring `phentsize`; for images whose `phentsize` is not 56, those offsets
differ from the `phentsize`-delimited table entries; and on the concrete
image `ex8` (`phentsize = 1`, `phnum = 2`) the checked byte range ends at 66
while the second record is read from bytes 120..176, outside it. -/
theorem ph_iter_stride_fixed :
    (∀ s l, program_headers s = .ok l →
      ∀ i, i < l.length →
        l[i]? = some (parseProgramHeader s (phoff s + i * phEntrySize))) ∧
    (∀ s i, 1 ≤ i → ¬ phentsize s = 56 →
      phoff s + i * phEntrySize ≠ phoff s + i * phentsize s) ∧
    (from_slice ex8 = .ok ex8 ∧ requiredSize ex8 = 66 ∧ ex8.length = 66 ∧
      (program_headers ex8).map List.length = .ok 2 ∧
      ex8.length < phoff ex8 + 1 * phEntrySize + phEntrySize) := by
  refine ⟨?_, ?_, by decide, by decide, by decide, by decide, by decide⟩
  · intro s l hok i hi
    unfold program_headers at hok
    split at hok
    · exact absurd hok (by simp)
    · have hmap := Except.ok.inj hok
      subst hmap
      simp only [List.length_map, List.length_range] at hi
      simp [List.getElem?_map, List.getElem?_range hi]
  · intro s i h1 h56 h
    have := Nat.eq_of_mul_eq_mul_left (Nat.lt_of_lt_of_le Nat.zero_lt_one h1)
      (by omega : i * phEntrySize = i * phentsize s)
    exact h56 (by simpa [phEntrySize] using this.symm)

/-- C8 witness: the stride property applied to the concrete image `ex8`: the
second yielded record is parsed from byte offset 120, although the
`phentsize`-delimited table ends at byte 66. -/
theorem ph_iter_stride_fixed_witness :
    (program_headers ex8).map (fun l => l[1]?) =
      .ok (some (parseProgramHeader ex8 120)) := by
  cases h : program_headers ex8 with
  | error e =>
    have hm := ph_iter_stride_fixed.2.2.2.2.2.1
    rw [h] at hm
    exact absurd hm (by simp [Except.map])
  | ok l =>
    have hlen : l.length = 2 := by
      have hm := ph_iter_stride_fixed.2.2.2.2.2.1
      rw [h] at hm
      simpa [Except.map] using hm
    have h1 := ph_iter_stride_fixed.1 ex8 l h 1 (by omega)
    rw [(by decide : phoff ex8 + 1 * phEntrySize = 120)] at h1
    simp [Except.map, h1]

/-- C1 (amended): for every LOAD segment, the file-backed loop issues
`⌊filesz/4096⌋ + 1` map calls, the two loops together issue
`⌊memsz/4096⌋ + 1` (floor division, as the Rust integer division computes,
not ceiling), the tail loop issues `total_pages − file_pages`, and the
kernel-file buffer holds `⌊size/4096⌋ + 1` pages, enough to cover the
file. -/
theorem load_kernel_page_counts
    (kstart off vaddr filesz memsz astart klen : Nat) :
    (fileMapCalls kstart off vaddr filesz).length = filesz / 4096 + 1 ∧
    (allocMapCalls astart vaddr filesz memsz).length =
      total_pages memsz - n_pages_from_file filesz ∧
    (filesz ≤ memsz →
      (segMapCalls kstart off vaddr filesz memsz astart).length = memsz / 4096 + 1) ∧
    kernel_file_pages klen = klen / 4096 + 1 ∧
    klen < kernel_file_pages klen * 4096 := by
  have hfile : (fileMapCalls kstart off vaddr filesz).length = filesz / 4096 + 1 := by
    simp [fileMapCalls, n_pages_from_file, PAGE_SIZE]
  have halloc : (allocMapCalls astart vaddr filesz memsz).length =
      total_pages memsz - n_pages_from_file filesz := by
    unfold allocMapCalls
    split
    · simp [n_alloc_pages]
    · rename_i hz
      simp only [not_not, n_alloc_pages] at hz
      simp only [List.length_nil]
      omega
  refine ⟨hfile, halloc, ?_, rfl, ?_⟩
  · intro h
    have hmono : filesz / 4096 ≤ memsz / 4096 := Nat.div_le_div_right h
    simp only [segMapCalls, List.length_append, hfile, halloc]
    unfold total_pages n_pages_from_file PAGE_SIZE
    omega
  · unfold kernel_file_pages PAGE_SIZE
    omega

/-- C1 counterexample: for `filesz = 2048` the file-backed loop issues a
single map call, `⌊2048/4096⌋ + 1 = 1`, not the `⌈2048/4096⌉ + 1 = 2` the
claim's formula gives. -/
theorem load_kernel_page_counts_ceil_cex :
    n_pages_from_file 2048 = 1 ∧
    (2048 + 4096 - 1) / 4096 + 1 = 2 ∧
    (fileMapCalls 0 0 0 2048).length = 1 :=
  ⟨by decide, by decide, by decide⟩

/-- C1 witness: spec scenario S5's sizes (`filesz = 0x800`, `memsz = 0x2000`):
the segment maps 3 pages in total. -/
theorem load_kernel_page_counts_witness :
    (segMapCalls 0 4096 0 2048 8192 0).length = 3 := by
  have h := (load_kernel_page_counts 0 4096 0 2048 8192 0 0).2.2.1 (by omega)
  omega

/-- C9: within one LOAD segment, the virtual page addresses passed to `map`
by the file-backed loop (`vaddr + x*4096` for `x < file_pages`) and by the
allocated-tail loop (`vaddr + x*4096` for `file_pages ≤ x < total_pages`)
are pairwise distinct, so one segment cannot reach the double-map panic
through overlap of the two loops. -/
theorem seg_map_vaddrs_nodup (kstart off vaddr filesz memsz astart : Nat) :
    ((segMapCalls kstart off vaddr filesz memsz astart).map Prod.snd).Nodup := by
  have hinj : Function.Injective fun x : Nat => vaddr + x * PAGE_SIZE := by
    intro a b hab
    simp only [PAGE_SIZE] at hab
    omega
  unfold segMapCalls fileMapCalls allocMapCalls
  split
  · rw [List.map_append, List.map_map, List.map_map]
    have h1 : (Prod.snd ∘ fun x : Nat =>
        (kstart + off + x * PAGE_SIZE, vaddr + x * PAGE_SIZE)) =
        fun x : Nat => vaddr + x * PAGE_SIZE := rfl
    have h2 : (Prod.snd ∘ fun x : Nat =>
        (astart + (x - n_pages_from_file filesz) * PAGE_SIZE, vaddr + x * PAGE_SIZE)) =
        fun x : Nat => vaddr + x * PAGE_SIZE := rfl
    rw [h1, h2]
    refine List.Nodup.append ((List.nodup_range _).map hinj)
      ((List.nodup_range' _ _).map hinj) ?_
    intro a ha hb
    obtain ⟨x, hx, rfl⟩ := List.mem_map.mp ha
    obtain ⟨y, hy, hxy⟩ := List.mem_map.mp hb
    rw [List.mem_range] at hx
    rw [List.mem_range'] at hy
    obtain ⟨i, hi, rfl⟩ := hy
    have := hinj hxy
    simp only at this
    omega
  · rw [List.append_nil, List.map_map]
    exact (List.nodup_range _).map hinj

/-- C10: under the ELF invariant `filesz ≤ memsz`, the two unchecked
subtractions in `load_kernel` cannot underflow: `file_pages ≤ total_pages`
(the tail page count is exact) and the zero-fill length satisfies
`filesz + (memsz − filesz) = memsz`. -/
theorem load_kernel_no_underflow (filesz memsz : Nat) (h : filesz ≤ memsz) :
    n_pages_from_file filesz ≤ total_pages memsz ∧
    n_pages_from_file filesz + n_alloc_pages filesz memsz = total_pages memsz ∧
    filesz + zeroed_len filesz memsz = memsz := by
  unfold n_pages_from_file total_pages n_alloc_pages zeroed_len PAGE_SIZE
  have hmono : filesz / 4096 ≤ memsz / 4096 := Nat.div_le_div_right h
  unfold total_pages n_pages_from_file PAGE_SIZE
  omega

/-- C10 witness: the no-underflow facts at `filesz = 2048`, `memsz = 8192`. -/
theorem load_kernel_no_underflow_witness :
    n_pages_from_file 2048 ≤ total_pages 8192 ∧
    n_pages_from_file 2048 + n_alloc_pages 2048 8192 = total_pages 8192 ∧
    2048 + zeroed_len 2048 8192 = 8192 :=
  load_kernel_no_underflow 2048 8192 (by omega)

/-! ### Bitwise arithmetic of the paging builder -/

theorem land_4095 (x : Nat) : x &&& 4095 = x % 4096 := by
  have h := Nat.and_pow_two_sub_one_eq_mod x 12
  norm_num at h
  exact h

theorem land_511 (x : Nat) : x &&& 511 = x % 512 := by
  have h := Nat.and_pow_two_sub_one_eq_mod x 9
  norm_num at h
  exact h

theorem ptl4_index_eq (addr : Nat) : ptl4_index addr = addr / 2 ^ 39 % 512 := by
  unfold ptl4_index
  rw [Nat.shiftRight_eq_div_pow, land_511]

theorem ptl3_index_eq (addr : Nat) : ptl3_index addr = addr / 2 ^ 30 % 512 := by
  unfold ptl3_index
  rw [Nat.shiftRight_eq_div_pow, land_511]

theorem ptl2_index_eq (addr : Nat) : ptl2_index addr = addr / 2 ^ 21 % 512 := by
  unfold ptl2_index
  rw [Nat.shiftRight_eq_div_pow, land_511]

theorem ptl1_index_eq (addr : Nat) : ptl1_index addr = addr / 2 ^ 12 % 512 := by
  unfold ptl1_index
  rw [Nat.shiftRight_eq_div_pow, land_511]

theorem ptl4_index_upper_half (addr : Nat) (h1 : 0xffff800000000000 ≤ addr)
    (h2 : addr < 2 ^ 64) : 256 ≤ ptl4_index addr := by
  rw [ptl4_index_eq]
  omega

theorem lor_one_of_even (x : Nat) (h : x % 2 = 0) : x ||| 1 = x + 1 := by
  apply Nat.eq_of_testBit_eq
  intro i
  cases i with
  | zero =>
    simp only [Nat.testBit_or, Nat.testBit_zero]
    have h1 : (x + 1) % 2 = 1 := by omega
    simp [h, h1]
  | succ n =>
    rw [Nat.testBit_or, Nat.testBit_add_one, Nat.testBit_add_one, Nat.testBit_add_one]
    have h2 : (x + 1) / 2 = x / 2 := by omega
    have h3 : (1 : Nat) / 2 = 0 := by norm_num
    rw [h2, h3]
    simp

theorem lor_one_mod_two (x : Nat) : (x ||| 1) % 2 = 1 :=
  Nat.or_mod_two_eq_one.mpr (Or.inr (by norm_num))

theorem lor_one_and_present (x : Nat) : (x ||| PRESENT) &&& PRESENT = 1 := by
  unfold PRESENT
  rw [Nat.and_one_is_mod, lor_one_mod_two]

theorem lor_one_ne_zero (x : Nat) : ¬ x ||| PRESENT = 0 := by
  intro h
  have := lor_one_mod_two x
  unfold PRESENT at h
  omega

theorem and_frame_mask_eq (x : Nat) : x &&& FRAME_MASK = x / 4096 % 2 ^ 40 * 4096 := by
  have hmask : FRAME_MASK = (2 ^ 40 - 1) <<< 12 := by
    rw [Nat.shiftLeft_eq]
    norm_num [FRAME_MASK]
  have hr : x / 4096 % 2 ^ 40 * 4096 = ((x >>> 12) % 2 ^ 40) <<< 12 := by
    rw [Nat.shiftRight_eq_div_pow, Nat.shiftLeft_eq]
  apply Nat.eq_of_testBit_eq
  intro i
  rw [Nat.testBit_and, hmask, hr, Nat.testBit_shiftLeft, Nat.testBit_shiftLeft,
    Nat.testBit_mod_two_pow, Nat.testBit_shiftRight, Nat.testBit_two_pow_sub_one]
  by_cases h12 : 12 ≤ i
  · by_cases h40 : i - 12 < 40
    · have hi : 12 + (i - 12) = i := by omega
      simp [h12, h40, hi]
    · simp [h12, h40]
  · simp [h12]

theorem frame_mask_aligned (x : Nat) (ha : x % 4096 = 0) (hlt : x < 2 ^ 52) :
    x &&& FRAME_MASK = x := by
  rw [and_frame_mask_eq]
  omega

theorem frame_mask_lor_one (x : Nat) (ha : x % 4096 = 0) (hlt : x < 2 ^ 52) :
    (x ||| PRESENT) &&& FRAME_MASK = x := by
  unfold PRESENT
  rw [lor_one_of_even x (by omega), and_frame_mask_eq]
  omega

/-! ### The `map` descent on an empty path -/

theorem childTable_alloc (s : PTState) (parent idx p : Nat) (tl : List Nat)
    (he : s.tables parent idx = 0) (hf : s.fresh = p :: tl) :
    childTable s parent idx =
      some (p, ⟨writeEntry (zeroTable s.tables p) parent idx (p ||| PRESENT),
        s.root, tl⟩) := by
  unfold childTable
  rw [he, if_pos rfl, hf]

theorem childTable_follow (s : PTState) (parent idx : Nat)
    (he : ¬ s.tables parent idx = 0) :
    childTable s parent idx = some (s.tables parent idx &&& FRAME_MASK, s) := by
  unfold childTable
  rw [if_neg he]

/-- After a `map` call on a path whose root entry is empty, with three
distinct non-root frames at the head of the allocator stream: the call
succeeds, consumes exactly those three frames, and the four entries along
the path hold the three fresh tables and the mapped page, each with the
present flag. -/
theorem map_empty_path_state (s : PTState) (page addr t3 t2 t1 : Nat) (rest : List Nat)
    (hp : page &&& 4095 = 0)
    (ha : addr &&& 4095 = 0)
    (hh : 0xffff800000000000 ≤ addr)
    (he : s.tables s.root (ptl4_index addr) = 0)
    (hf : s.fresh = t3 :: t2 :: t1 :: rest)
    (h3r : ¬ t3 = s.root) (h2r : ¬ t2 = s.root) (h1r : ¬ t1 = s.root)
    (h23 : ¬ t2 = t3) (h13 : ¬ t1 = t3) (h12 : ¬ t1 = t2) :
    (map s page addr).isSome = true ∧
    ∀ s1, map s page addr = some s1 →
      s1.root = s.root ∧ s1.fresh = rest ∧
      s1.tables s.root (ptl4_index addr) = t3 ||| PRESENT ∧
      s1.tables t3 (ptl3_index addr) = t2 ||| PRESENT ∧
      s1.tables t2 (ptl2_index addr) = t1 ||| PRESENT ∧
      s1.tables t1 (ptl1_index addr) = page ||| PRESENT := by
  have r3 : ¬ s.root = t3 := fun h => h3r h.symm
  have r2 : ¬ s.root = t2 := fun h => h2r h.symm
  have r1 : ¬ s.root = t1 := fun h => h1r h.symm
  have h32 : ¬ t3 = t2 := fun h => h23 h.symm
  have h31 : ¬ t3 = t1 := fun h => h13 h.symm
  have h21 : ¬ t2 = t1 := fun h => h12 h.symm
  have h4 := childTable_alloc s s.root (ptl4_index addr) t3 (t2 :: t1 :: rest) he hf
  have e3 : (⟨writeEntry (zeroTable s.tables t3) s.root (ptl4_index addr)
      (t3 ||| PRESENT), s.root, t2 :: t1 :: rest⟩ : PTState).tables t3
      (ptl3_index addr) = 0 := by
    simp [writeEntry, zeroTable, h3r]
  have h3 := childTable_alloc ⟨writeEntry (zeroTable s.tables t3) s.root
      (ptl4_index addr) (t3 ||| PRESENT), s.root, t2 :: t1 :: rest⟩
      t3 (ptl3_index addr) t2 (t1 :: rest) e3 rfl
  have e2 : (⟨writeEntry (zeroTable (writeEntry (zeroTable s.tables t3) s.root
      (ptl4_index addr) (t3 ||| PRESENT)) t2) t3 (ptl3_index addr)
      (t2 ||| PRESENT), s.root, t1 :: rest⟩ : PTState).tables t2
      (ptl2_index addr) = 0 := by
    simp [writeEntry, zeroTable, h23]
  have h2 := childTable_alloc ⟨writeEntry (zeroTable (writeEntry (zeroTable
      s.tables t3) s.root (ptl4_index addr) (t3 ||| PRESENT)) t2) t3
      (ptl3_index addr) (t2 ||| PRESENT), s.root, t1 :: rest⟩
      t2 (ptl2_index addr) t1 rest e2 rfl
  have hit : interiorTables s addr = some (t3, t2, t1,
      ⟨writeEntry (zeroTable (writeEntry (zeroTable (writeEntry (zeroTable
        s.tables t3) s.root (ptl4_index addr) (t3 ||| PRESENT)) t2) t3
        (ptl3_index addr) (t2 ||| PRESENT)) t1) t2 (ptl2_index addr)
        (t1 ||| PRESENT), s.root, rest⟩) := by
    unfold interiorTables
    rw [h4]
    simp only [Option.bind_eq_bind, Option.some_bind]
    rw [h3]
    simp only [Option.some_bind]
    rw [h2]
    simp only [Option.some_bind]
    rfl
  have hleaf : writeEntry (zeroTable (writeEntry (zeroTable (writeEntry
      (zeroTable s.tables t3) s.root (ptl4_index addr) (t3 ||| PRESENT)) t2) t3
      (ptl3_index addr) (t2 ||| PRESENT)) t1) t2 (ptl2_index addr)
      (t1 ||| PRESENT) t1 (ptl1_index addr) = 0 := by
    simp [writeEntry, zeroTable, h12]
  have hm : map s page addr = some
      ⟨writeEntry (writeEntry (zeroTable (writeEntry (zeroTable (writeEntry
        (zeroTable s.tables t3) s.root (ptl4_index addr) (t3 ||| PRESENT)) t2) t3
        (ptl3_index addr) (t2 ||| PRESENT)) t1) t2 (ptl2_index addr)
        (t1 ||| PRESENT)) t1 (ptl1_index addr) (page ||| PRESENT),
      s.root, rest⟩ := by
    unfold map
    rw [if_neg (fun hc => hc hp), if_neg (fun hc => hc ha),
      if_neg (Nat.not_lt.mpr hh), hit]
    simp only [hleaf, not_true_eq_false, if_false, ite_false]
  refine ⟨by rw [hm]; rfl, ?_⟩
  intro s1 hs1
  rw [hm] at hs1
  have := Option.some.inj hs1
  subst this
  refine ⟨rfl, rfl, ?_, ?_, ?_, ?_⟩
  · simp [writeEntry, zeroTable, r1, r2, r3]
  · simp [writeEntry, zeroTable, h31, h32]
  · simp [writeEntry, zeroTable, h21]
  · simp [writeEntry]

/-- A 4-level walk through a path whose four entries hold aligned frames
`t3`, `t2`, `t1`, `page` with the present flag resolves to `page`. -/
theorem walk_of_path_entries (s1 : PTState) (addr page t3 t2 t1 : Nat)
    (hpa : page % 4096 = 0) (hp52 : page < 2 ^ 52)
    (h3a : t3 % 4096 = 0) (h3lt : t3 < 2 ^ 52)
    (h2a : t2 % 4096 = 0) (h2lt : t2 < 2 ^ 52)
    (h1a : t1 % 4096 = 0) (h1lt : t1 < 2 ^ 52)
    (he4 : s1.tables s1.root (ptl4_index addr) = t3 ||| PRESENT)
    (he3 : s1.tables t3 (ptl3_index addr) = t2 ||| PRESENT)
    (he2 : s1.tables t2 (ptl2_index addr) = t1 ||| PRESENT)
    (he1 : s1.tables t1 (ptl1_index addr) = page ||| PRESENT) :
    walk s1 addr = some page := by
  have hm3 := frame_mask_lor_one t3 h3a h3lt
  have hm2 := frame_mask_lor_one t2 h2a h2lt
  have hm1 := frame_mask_lor_one t1 h1a h1lt
  have hmp := frame_mask_lor_one page hpa hp52
  simp only [walk, he4, lor_one_and_present, hm3, he3, hm2, he2, hm1, he1, hmp]
  norm_num

/-- C3: after `map p v` with both arguments 4 KiB-aligned, `v` in the upper
half, the root entry of `v`'s path previously zero, and the allocator about
to hand out three distinct well-formed non-root frames, the walk of the
resulting tree resolves `v` to `p` with the present flag, and the three
interior entries on the path each have the present flag and a non-zero
frame address.  (The frame hypotheses on `t3 t2 t1` model the firmware
allocator: it returns 4 KiB-aligned physical frames below 2^52 that are
distinct from each other and from the live root table.) -/
theorem map_resolves_on_empty_path (s : PTState) (page addr t3 t2 t1 : Nat)
    (rest : List Nat)
    (hp : page &&& 4095 = 0) (hp52 : page < 2 ^ 52)
    (ha : addr &&& 4095 = 0)
    (hh : 0xffff800000000000 ≤ addr)
    (he : s.tables s.root (ptl4_index addr) = 0)
    (hf : s.fresh = t3 :: t2 :: t1 :: rest)
    (h3a : t3 % 4096 = 0) (h3lt : t3 < 2 ^ 52) (h3nz : ¬ t3 = 0) (h3r : ¬ t3 = s.root)
    (h2a : t2 % 4096 = 0) (h2lt : t2 < 2 ^ 52) (h2nz : ¬ t2 = 0) (h2r : ¬ t2 = s.root)
    (h1a : t1 % 4096 = 0) (h1lt : t1 < 2 ^ 52) (h1nz : ¬ t1 = 0) (h1r : ¬ t1 = s.root)
    (h23 : ¬ t2 = t3) (h13 : ¬ t1 = t3) (h12 : ¬ t1 = t2) :
    (map s page addr).isSome = true ∧
    ∀ s1, map s page addr = some s1 →
      walk s1 addr = some page ∧
      s1.tables s1.root (ptl4_index addr) &&& PRESENT = 1 ∧
      ¬ s1.tables s1.root (ptl4_index addr) &&& FRAME_MASK = 0 ∧
      s1.tables (s1.tables s1.root (ptl4_index addr) &&& FRAME_MASK)
        (ptl3_index addr) &&& PRESENT = 1 ∧
      ¬ s1.tables (s1.tables s1.root (ptl4_index addr) &&& FRAME_MASK)
        (ptl3_index addr) &&& FRAME_MASK = 0 ∧
      s1.tables (s1.tables (s1.tables s1.root (ptl4_index addr) &&& FRAME_MASK)
        (ptl3_index addr) &&& FRAME_MASK) (ptl2_index addr) &&& PRESENT = 1 ∧
      ¬ s1.tables (s1.tables (s1.tables s1.root (ptl4_index addr) &&& FRAME_MASK)
        (ptl3_index addr) &&& FRAME_MASK) (ptl2_index addr) &&& FRAME_MASK = 0 := by
  obtain ⟨hsome, hfields⟩ := map_empty_path_state s page addr t3 t2 t1 rest
    hp ha hh he hf h3r h2r h1r h23 h13 h12
  refine ⟨hsome, ?_⟩
  intro s1 h
  obtain ⟨hroot, hfresh, he4, he3, he2, he1⟩ := hfields s1 h
  have hpa : page % 4096 = 0 := by rw [land_4095] at hp; exact hp
  have hm3 := frame_mask_lor_one t3 h3a h3lt
  have hm2 := frame_mask_lor_one t2 h2a h2lt
  have hm1 := frame_mask_lor_one t1 h1a h1lt
  have he4r : s1.tables s1.root (ptl4_index addr) = t3 ||| PRESENT := by
    rw [hroot]; exact he4
  refine ⟨walk_of_path_entries s1 addr page t3 t2 t1 hpa hp52 h3a h3lt h2a h2lt
    h1a h1lt he4r he3 he2 he1, ?_, ?_, ?_, ?_, ?_, ?_⟩
  · rw [he4r]; exact lor_one_and_present t3
  · rw [he4r, hm3]; exact h3nz
  · rw [he4r, hm3, he3]; exact lor_one_and_present t2
  · rw [he4r, hm3, he3, hm2]; exact h2nz
  · rw [he4r, hm3, he3, hm2, he2]; exact lor_one_and_present t1
  · rw [he4r, hm3, he3, hm2, he2, hm1]; exact h1nz

/-- C3 witness: on a concrete all-zero machine with root 4096 and allocator
frames 8192, 12288, 16384, mapping physical page `0x200000` at the
upper-half address `0xffff8000_00000000` succeeds, and the walk of the
resulting tree resolves that address to `0x200000`. -/
theorem map_resolves_on_empty_path_witness :
    (map s0c 0x200000 0xffff800000000000).isSome = true ∧
    (map s0c 0x200000 0xffff800000000000).map
      (fun s1 => walk s1 0xffff800000000000) = some (some 0x200000) := by
  have h := map_resolves_on_empty_path s0c 0x200000 0xffff800000000000
    8192 12288 16384 [] (by decide) (by decide) (by decide) (by decide) rfl rfl
    (by decide) (by decide) (by decide) (by decide)
    (by decide) (by decide) (by decide) (by decide)
    (by decide) (by decide) (by decide) (by decide)
    (by decide) (by decide) (by decide)
  refine ⟨h.1, ?_⟩
  cases hm : map s0c 0x200000 0xffff800000000000 with
  | none => rw [hm] at h; exact absurd h.1 (by simp)
  | some s1 =>
    rw [hm] at h
    simp [(h.2 s1 rfl).1]

/-- C4: `map` fails fatally exactly when `p` or `v` is unaligned, `v` is in
the lower half, interior-table allocation fails, or the leaf entry reached
by the descent is already non-zero; and (under the allocator model used in
C3) after a successful `map p v` from an empty path the mapping of `v` is
resolvable and a second `map` call at the same `v` — with any page —
fails fatally. -/
theorem map_fatal_characterization :
    (∀ s page addr, map s page addr = none ↔
      (¬ page &&& 4095 = 0 ∨ ¬ addr &&& 4095 = 0 ∨ addr < 0xffff800000000000 ∨
        interiorTables s addr = none ∨
        ∃ pt3 pt2 pt1 sl, interiorTables s addr = some (pt3, pt2, pt1, sl) ∧
          ¬ sl.tables pt1 (ptl1_index addr) = 0)) ∧
    (∀ s page addr t3 t2 t1 rest,
      page &&& 4095 = 0 → page < 2 ^ 52 →
      addr &&& 4095 = 0 → 0xffff800000000000 ≤ addr →
      s.tables s.root (ptl4_index addr) = 0 →
      s.fresh = t3 :: t2 :: t1 :: rest →
      t3 % 4096 = 0 → t3 < 2 ^ 52 → ¬ t3 = s.root →
      t2 % 4096 = 0 → t2 < 2 ^ 52 → ¬ t2 = s.root →
      t1 % 4096 = 0 → t1 < 2 ^ 52 → ¬ t1 = s.root →
      ¬ t2 = t3 → ¬ t1 = t3 → ¬ t1 = t2 →
      ∀ s1, map s page addr = some s1 →
        walk s1 addr = some page ∧ ∀ page2, map s1 page2 addr = none) := by
  constructor
  · intro s page addr
    by_cases hp : page &&& 4095 = 0
    · by_cases ha : addr &&& 4095 = 0
      · by_cases hl : addr < 0xffff800000000000
        · exact ⟨fun _ => Or.inr (Or.inr (Or.inl hl)), fun _ => by simp [map, hp, ha, hl]⟩
        · cases hit : interiorTables s addr with
          | none =>
            exact ⟨fun _ => Or.inr (Or.inr (Or.inr (Or.inl rfl))),
              fun _ => by simp [map, hp, ha, hl, hit]⟩
          | some q =>
            obtain ⟨pt3, pt2, pt1, sl⟩ := q
            by_cases hleaf : sl.tables pt1 (ptl1_index addr) = 0
            · constructor
              · intro hn
                exfalso
                simp [map, hp, ha, hl, hit, hleaf] at hn
              · intro hcond
                exfalso
                rcases hcond with h | h | h | h | ⟨a, b, c, d, heq, hne⟩
                · exact h hp
                · exact h ha
                · exact hl h
                · exact absurd h (by simp)
                · have heq' := Option.some.inj heq
                  simp only [Prod.mk.injEq] at heq'
                  obtain ⟨-, -, rfl, rfl⟩ := heq'
                  exact hne hleaf
            · exact ⟨fun _ => Or.inr (Or.inr (Or.inr (Or.inr
                ⟨pt3, pt2, pt1, sl, rfl, hleaf⟩))),
                fun _ => by simp [map, hp, ha, hl, hit, hleaf]⟩
      · exact ⟨fun _ => Or.inr (Or.inl ha), fun _ => by simp [map, hp, ha]⟩
    · exact ⟨fun _ => Or.inl hp, fun _ => by simp [map, hp]⟩
  · intro s page addr t3 t2 t1 rest hp hp52 ha hh he hf h3a h3lt h3r
      h2a h2lt h2r h1a h1lt h1r h23 h13 h12 s1 hmap
    obtain ⟨-, hfields⟩ := map_empty_path_state s page addr t3 t2 t1 rest
      hp ha hh he hf h3r h2r h1r h23 h13 h12
    obtain ⟨hroot, hfresh, he4, he3, he2, he1⟩ := hfields s1 hmap
    have hpa : page % 4096 = 0 := by rw [land_4095] at hp; exact hp
    have he4r : s1.tables s1.root (ptl4_index addr) = t3 ||| PRESENT := by
      rw [hroot]; exact he4
    have hm3 := frame_mask_lor_one t3 h3a h3lt
    have hm2 := frame_mask_lor_one t2 h2a h2lt
    have hm1 := frame_mask_lor_one t1 h1a h1lt
    refine ⟨walk_of_path_entries s1 addr page t3 t2 t1 hpa hp52 h3a h3lt
      h2a h2lt h1a h1lt he4r he3 he2 he1, ?_⟩
    intro page2
    by_cases hp2 : page2 &&& 4095 = 0
    · have c4 : childTable s1 s1.root (ptl4_index addr) = some (t3, s1) := by
        rw [childTable_follow s1 s1.root (ptl4_index addr)
          (by rw [he4r]; exact lor_one_ne_zero t3)]
        rw [he4r, hm3]
      have c3 : childTable s1 t3 (ptl3_index addr) = some (t2, s1) := by
        rw [childTable_follow s1 t3 (ptl3_index addr)
          (by rw [he3]; exact lor_one_ne_zero t2)]
        rw [he3, hm2]
      have c2 : childTable s1 t2 (ptl2_index addr) = some (t1, s1) := by
        rw [childTable_follow s1 t2 (ptl2_index addr)
          (by rw [he2]; exact lor_one_ne_zero t1)]
        rw [he2, hm1]
      have hit2 : interiorTables s1 addr = some (t3, t2, t1, s1) := by
        unfold interiorTables
        rw [c4]
        simp only [Option.bind_eq_bind, Option.some_bind]
        rw [c3]
        simp only [Option.some_bind]
        rw [c2]
        simp only [Option.some_bind]
        rfl
      unfold map
      rw [if_neg (fun hc => hc hp2), if_neg (fun hc => hc ha),
        if_neg (Nat.not_lt.mpr hh), hit2]
      simp only [he1]
      rw [if_pos (lor_one_ne_zero page)]
    · unfold map
      rw [if_pos hp2]

/-- C4 witness: spec scenario S6 on the concrete machine `s0c`: mapping
`0x200000` at `0xffff8000_00000000` succeeds and is resolvable, and a second
`map` call at the same address fails fatally. -/
theorem map_fatal_characterization_witness :
    (map s0c 0x200000 0xffff800000000000).map
      (fun s1 => walk s1 0xffff800000000000) = some (some 0x200000) ∧
    ((map s0c 0x200000 0xffff800000000000).bind
      (fun s1 => map s1 0x200000 0xffff800000000000)) = none := by
  cases hm : map s0c 0x200000 0xffff800000000000 with
  | none =>
    have hs : (map s0c 0x200000 0xffff800000000000).isSome = true := rfl
    rw [hm] at hs
    exact absurd hs (by simp)
  | some s1 =>
    have h := map_fatal_characterization.2 s0c 0x200000 0xffff800000000000
      8192 12288 16384 [] (by decide) (by decide) (by decide) (by decide) rfl rfl
      (by decide) (by decide) (by decide)
      (by decide) (by decide) (by decide)
      (by decide) (by decide) (by decide)
      (by decide) (by decide) (by decide) s1 hm
    constructor
    · simp [h.1]
    · simp [h.2 0x200000]

/-- One interior step of `map` preserves the descent invariant `InvP` and
never descends into the root table, provided no live entry points back at
the root and the allocator frames are well formed and distinct from the
root. -/
theorem childTable_inv (s0 s1 : PTState) (parent idx t : Nat) (s2 : PTState)
    (H : ∀ a i, ¬ s0.tables a i &&& FRAME_MASK = s0.root)
    (Hf : ∀ a, a ∈ s0.fresh → a % 4096 = 0 ∧ a < 2 ^ 52 ∧ ¬ a = s0.root)
    (hinv : InvP s0 s1)
    (hparent : ¬ parent = s0.root ∨ 256 ≤ idx)
    (h : childTable s1 parent idx = some (t, s2)) :
    InvP s0 s2 ∧ ¬ t = s0.root := by
  obtain ⟨hroot, hfresh, hlow, hcell⟩ := hinv
  unfold childTable at h
  by_cases he : s1.tables parent idx = 0
  · rw [if_pos he] at h
    cases hfl : s1.fresh with
    | nil => rw [hfl] at h; exact absurd h (by simp)
    | cons p tl =>
      rw [hfl] at h
      have hinj := Option.some.inj h
      simp only [Prod.mk.injEq] at hinj
      obtain ⟨rfl, rfl⟩ := hinj
      have hpmem : p ∈ s0.fresh := hfresh p (by rw [hfl]; exact List.mem_cons_self p tl)
      obtain ⟨hpa, hplt, hpr⟩ := Hf p hpmem
      refine ⟨⟨hroot, ?_, ?_, ?_⟩, hpr⟩
      · intro a hamem
        exact hfresh a (by rw [hfl]; exact List.mem_cons_of_mem p hamem)
      · intro i hi
        simp only [writeEntry, zeroTable]
        have hcond : ¬ (s0.root = parent ∧ i = idx) := by
          rcases hparent with hP | hP
          · exact fun hc => hP hc.1.symm
          · exact fun hc => by omega
        rw [if_neg hcond, if_neg (fun hh0 => hpr hh0.symm)]
        exact hlow i hi
      · intro a i
        simp only [writeEntry, zeroTable]
        by_cases hc1 : a = parent ∧ i = idx
        · rw [if_pos hc1]
          exact Or.inr (Or.inr ⟨p, hpmem, rfl⟩)
        · rw [if_neg hc1]
          by_cases hc2 : a = p
          · rw [if_pos hc2]
            exact Or.inr (Or.inl rfl)
          · rw [if_neg hc2]
            exact hcell a i
  · rw [if_neg he] at h
    have hinj := Option.some.inj h
    simp only [Prod.mk.injEq] at hinj
    obtain ⟨rfl, rfl⟩ := hinj
    refine ⟨⟨hroot, hfresh, hlow, hcell⟩, ?_⟩
    rcases hcell parent idx with hc | hc | ⟨a, hamem, hc⟩
    · rw [hc]
      exact H parent idx
    · exact absurd hc he
    · rw [hc]
      obtain ⟨haa, halt, har⟩ := Hf a hamem
      rw [frame_mask_lor_one a haa halt]
      exact har

/-- C6: `prepare_root_pt` zeroes exactly the root-table entries 256..512,
leaving entries below 256 and every other table unchanged; and a successful
`map` call with an upper-half target writes no root-table entry below 256
(the hypotheses model the live machine: no page-table entry points back at
the root frame and the allocator hands out well-formed non-root frames), so
the firmware's lower-half identity-map entries survive every operation of
the core. -/
theorem upper_half_discipline :
    (∀ s i, i < 256 → (prepare_root_pt s).tables s.root i = s.tables s.root i) ∧
    (∀ s i, 256 ≤ i → i < 512 → (prepare_root_pt s).tables s.root i = 0) ∧
    (∀ s t i, ¬ t = s.root → (prepare_root_pt s).tables t i = s.tables t i) ∧
    (∀ s page addr s1, addr < 2 ^ 64 →
      (∀ t i, ¬ s.tables t i &&& FRAME_MASK = s.root) →
      (∀ a, a ∈ s.fresh → a % 4096 = 0 ∧ a < 2 ^ 52 ∧ ¬ a = s.root) →
      map s page addr = some s1 →
      ∀ i, i < 256 → s1.tables s.root i = s.tables s.root i) := by
  refine ⟨?_, ?_, ?_, ?_⟩
  · intro s i hi
    have hn : ¬ 256 ≤ i := by omega
    simp [prepare_root_pt, hn]
  · intro s i h1 h2
    simp [prepare_root_pt, h1, h2]
  · intro s t i ht
    simp [prepare_root_pt, ht]
  · intro s page addr s1 h64 H Hf hmap i hi
    unfold map at hmap
    split at hmap
    · exact absurd hmap (by simp)
    · split at hmap
      · exact absurd hmap (by simp)
      · split at hmap
        · exact absurd hmap (by simp)
        · rename_i hl
          have hup : 0xffff800000000000 ≤ addr := Nat.le_of_not_lt hl
          cases hit : interiorTables s addr with
          | none => rw [hit] at hmap; exact absurd hmap (by simp)
          | some q =>
            obtain ⟨t3v, t2v, t1v, sI⟩ := q
            rw [hit] at hmap
            by_cases hleaf : sI.tables t1v (ptl1_index addr) = 0
            case neg =>
              simp only [hleaf, not_false_eq_true, if_true, ite_true] at hmap
              exact absurd hmap (by simp)
            case pos =>
              simp only [hleaf, not_true_eq_false, if_false, ite_false] at hmap
              have hs1 := Option.some.inj hmap
              unfold interiorTables at hit
              cases h4 : childTable s s.root (ptl4_index addr) with
              | none => rw [h4] at hit; exact absurd hit (by simp)
              | some q3 =>
                obtain ⟨a3, s3⟩ := q3
                rw [h4] at hit
                simp only [Option.bind_eq_bind, Option.some_bind] at hit
                cases h3 : childTable s3 a3 (ptl3_index addr) with
                | none => rw [h3] at hit; exact absurd hit (by simp)
                | some q2 =>
                  obtain ⟨a2, s2i⟩ := q2
                  rw [h3] at hit
                  simp only [Option.some_bind] at hit
                  cases h2 : childTable s2i a2 (ptl2_index addr) with
                  | none => rw [h2] at hit; exact absurd hit (by simp)
                  | some q1 =>
                    obtain ⟨a1, s1i⟩ := q1
                    rw [h2] at hit
                    simp only [Option.some_bind] at hit
                    have hit' := Option.some.inj hit
                    simp only [Prod.mk.injEq] at hit'
                    obtain ⟨rfl, rfl, rfl, rfl⟩ := hit'
                    have inv0 : InvP s s :=
                      ⟨rfl, fun a ha => ha, fun j _ => rfl, fun a j => Or.inl rfl⟩
                    obtain ⟨inv3, h3root⟩ := childTable_inv s s s.root
                      (ptl4_index addr) a3 s3 H Hf inv0
                      (Or.inr (ptl4_index_upper_half addr hup h64)) h4
                    obtain ⟨inv2, h2root⟩ := childTable_inv s s3 a3
                      (ptl3_index addr) a2 s2i H Hf inv3 (Or.inl h3root) h3
                    obtain ⟨inv1, h1root⟩ := childTable_inv s s2i a2
                      (ptl2_index addr) a1 s1i H Hf inv2 (Or.inl h2root) h2
                    rw [← hs1]
                    simp only [writeEntry]
                    rw [if_neg (fun hc => h1root hc.1.symm)]
                    exact inv1.2.2.1 i hi

/-- C6 witness: on the concrete machine `s0c`, `prepare_root_pt` zeroes an
upper-half root entry, and a `map` call at an upper-half address leaves the
root entry 0 (a lower-half firmware entry) unchanged. -/
theorem upper_half_discipline_witness :
    (prepare_root_pt s0c).tables 4096 300 = 0 ∧
    (map s0c 0x200000 0xffff800000000000).map
      (fun s1 => s1.tables 4096 0) = some 0 := by
  constructor
  · exact upper_half_discipline.2.1 s0c 300 (by omega) (by omega)
  · cases hm : map s0c 0x200000 0xffff800000000000 with
    | none =>
      have hs : (map s0c 0x200000 0xffff800000000000).isSome = true := rfl
      rw [hm] at hs
      exact absurd hs (by simp)
    | some s1 =>
      have h := upper_half_discipline.2.2.2 s0c 0x200000 0xffff800000000000 s1
        (by decide)
        (fun t i => by simp [s0c, FRAME_MASK])
        (fun a ha => by
          simp only [s0c, List.mem_cons, List.not_mem_nil, or_false] at ha
          rcases ha with rfl | rfl | rfl <;> exact ⟨by decide, by decide, by decide⟩)
        hm
      exact congrArg some ((h 0 (by omega)).trans rfl)

end Boot
